import Mathlib

/-!
Verification of the relationship-ledger core of the followers/following
manager extension: the reconciler over the persisted `followDates` ledger
(`registerNewFollowers`, `registerNewFollowing`, `registerFollow`,
`registerFollower`, `removeFollowing`, `removeFollower`,
`syncFollowersStorage`, `syncFollowingStorage` of `src/utils/dateUtils.js`),
the schema migrations (`migrateDataIfNeeded` of `src/utils/dateUtils.js` and
`migrateV1ToV2` of `src/utils/storageVersioning.js`), the `IntelligentCache`
detail cache, and the `OfflineQueue` of `src/utils/offlineSupport.js`.

JavaScript objects used as keyed maps (plain objects keyed by userId and
`Map` instances) are embedded as association lists `List (Nat × α)` in key
insertion order: writing an existing key updates its value in place and keeps
its position, writing a fresh key appends, deleting removes.  JS string
truthiness (`s || d`) is embedded as a test against the empty string, numeric
truthiness as a test against `0`, and `Date.now()` is threaded explicitly as
a `now : Nat` argument.  Fields that the code may leave `undefined` are
embedded as `Option`.
-/

/-! ## Association-list maps (JS object / Map semantics) -/

/-- First value stored at key `k`, as `obj[k]` / `map.get(k)` reads it. -/
def mapFind {α : Type} : List (Nat × α) → Nat → Option α
  | [], _ => none
  | e :: rest, k => if e.1 = k then some e.2 else mapFind rest k

/-- Write `k ↦ v`: an existing key keeps its position (JS `Map.set` and plain
property writes do not reorder), a fresh key is appended. -/
def mapSet {α : Type} : List (Nat × α) → Nat → α → List (Nat × α)
  | [], k, v => [(k, v)]
  | e :: rest, k, v => if e.1 = k then (k, v) :: rest else e :: mapSet rest k v

/-- Delete key `k`, as JS `delete obj[k]` / `map.delete(k)`. -/
def mapDel {α : Type} (m : List (Nat × α)) (k : Nat) : List (Nat × α) :=
  m.filter (fun e => decide (e.1 ≠ k))

/-- The key list of a map, in iteration order (`Object.keys`). -/
def keysOf {α : Type} (m : List (Nat × α)) : List Nat :=
  m.map Prod.fst

/-- JS `s || d` on strings: the empty string is falsy. -/
def jsOr (s d : String) : String :=
  if s = "" then d else s

/-! ## The relationship ledger (`dateUtils.js`, current schema)

`followDates = { followers: { userId: { timestamp, username, isActive } },
following: { ... } }`.  Every storage read goes through `initializeStorage`,
which migrates any record still missing `isActive`, so in the current-schema
model `isActive` is a plain `Bool`. -/

/-- One stored relationship record: `{ timestamp, username, isActive }`. -/
structure FollowRec where
  timestamp : Nat
  username : String
  isActive : Bool
deriving DecidableEq

/-- One direction of the ledger: the `followers` or `following` object. -/
abbrev Ledger := List (Nat × FollowRec)

/-- The whole persisted `followDates` value. -/
structure FollowDates where
  followers : Ledger
  following : Ledger
deriving DecidableEq

/-- One element of a fetched snapshot: `{ userId, username }` (a missing or
empty username is the empty string). -/
structure ObservedUser where
  userId : Nat
  username : String
deriving DecidableEq

/-- Core of `registerNewFollowers` / `registerNewFollowing` (dateUtils.js
lines 579-613 and 620-653), which run the same loop on one direction:
a subject absent from the ledger is inserted with `timestamp = Date.now()`,
`username = observed || "Unknown"`, `isActive = true` and pushed onto the
returned list with its `followDate`; a subject present but inactive is
reactivated (`isActive = true`, `username = observed || stored`) and not
returned; a subject present and active is untouched. -/
def registerNewCore (now : Nat) : List ObservedUser → Ledger → Ledger × List (ObservedUser × Nat)
  | [], led => (led, [])
  | o :: rest, led =>
    match mapFind led o.userId with
    | none =>
      let led1 := mapSet led o.userId ⟨now, jsOr o.username "Unknown", true⟩
      let done := registerNewCore now rest led1
      (done.1, (o, now) :: done.2)
    | some r =>
      if r.isActive = false then
        registerNewCore now rest
          (mapSet led o.userId { r with isActive := true, username := jsOr o.username r.username })
      else
        registerNewCore now rest led

/-- `registerNewFollowers(currentFollowers)`: always saves its result. -/
def registerNewFollowers (now : Nat) (currentFollowers : List ObservedUser)
    (fd : FollowDates) : FollowDates × List (ObservedUser × Nat) :=
  let done := registerNewCore now currentFollowers fd.followers
  ({ fd with followers := done.1 }, done.2)

/-- `registerNewFollowing(currentFollowing)`: always saves its result. -/
def registerNewFollowing (now : Nat) (currentFollowing : List ObservedUser)
    (fd : FollowDates) : FollowDates × List (ObservedUser × Nat) :=
  let done := registerNewCore now currentFollowing fd.following
  ({ fd with following := done.1 }, done.2)

/-- Core of `registerFollow` / `registerFollower` (dateUtils.js lines
661-688 and 696-723): an existing entry is reactivated with its original
timestamp preserved and `username = given || stored`; a fresh entry is
created with `timestamp = Date.now()`. -/
def registerExplicitCore (now : Nat) (userId : Nat) (username : String) (led : Ledger) : Ledger :=
  match mapFind led userId with
  | some r => mapSet led userId { r with isActive := true, username := jsOr username r.username }
  | none => mapSet led userId ⟨now, username, true⟩

/-- `registerFollow(userId, username)` writes the `following` collection. -/
def registerFollow (now : Nat) (userId : Nat) (username : String) (fd : FollowDates) : FollowDates :=
  { fd with following := registerExplicitCore now userId username fd.following }

/-- `registerFollower(userId, username)` writes the `followers` collection. -/
def registerFollower (now : Nat) (userId : Nat) (username : String) (fd : FollowDates) : FollowDates :=
  { fd with followers := registerExplicitCore now userId username fd.followers }

/-- Core of `removeFollowing` / `removeFollower` (dateUtils.js lines 730-741
and 748-759): mark the record inactive instead of removing it. -/
def setInactiveCore (userId : Nat) (led : Ledger) : Ledger :=
  match mapFind led userId with
  | some r => mapSet led userId { r with isActive := false }
  | none => led

/-- `removeFollowing(userId)`. -/
def removeFollowing (userId : Nat) (fd : FollowDates) : FollowDates :=
  { fd with following := setInactiveCore userId fd.following }

/-- `removeFollower(userId)`. -/
def removeFollower (userId : Nat) (fd : FollowDates) : FollowDates :=
  { fd with followers := setInactiveCore userId fd.followers }

/-- One record of the `inactivatedRecords` list returned by the syncs
(`{ userId, timestamp, date, username }`; `date` is `new Date(timestamp)` and
is not repeated in the model). -/
structure InactivatedRec where
  userId : Nat
  timestamp : Nat
  username : String
deriving DecidableEq

/-- What `syncFollowersStorage` / `syncFollowingStorage` resolve with. -/
structure SyncResult where
  inactivatedRecords : List InactivatedRec
  updatedUsernames : Nat
deriving DecidableEq

/-- First loop of the syncs (dateUtils.js lines 907-926 / 979-998), over the
stored keys in order: a key absent from the snapshot is marked inactive and,
if it was not already inactive, reported; a key present in the snapshot is
marked active. -/
def syncPhase1 (ids : List Nat) : Ledger → Ledger × List InactivatedRec
  | [] => ([], [])
  | e :: rest =>
    let done := syncPhase1 ids rest
    if e.1 ∈ ids then
      ((e.1, { e.2 with isActive := true }) :: done.1, done.2)
    else
      if e.2.isActive then
        ((e.1, { e.2 with isActive := false }) :: done.1,
          ⟨e.1, e.2.timestamp, jsOr e.2.username "Unknown"⟩ :: done.2)
      else
        ((e.1, { e.2 with isActive := false }) :: done.1, done.2)

/-- Second loop of the syncs (dateUtils.js lines 929-947 / 1001-1019), over
the snapshot in order: for a truthy `userId` and `username` whose subject is
stored, refresh the username when it is missing, the placeholder, or
different (counting it), and mark the record active. -/
def syncPhase2 : List ObservedUser → Ledger → Nat → Ledger × Nat
  | [], led, cnt => (led, cnt)
  | u :: rest, led, cnt =>
    if u.userId ≠ 0 ∧ u.username ≠ "" then
      match mapFind led u.userId with
      | some r =>
        if r.username = "" ∨ r.username = "Unknown" ∨ r.username ≠ u.username then
          syncPhase2 rest (mapSet led u.userId { r with username := u.username, isActive := true }) (cnt + 1)
        else
          syncPhase2 rest (mapSet led u.userId { r with isActive := true }) cnt
      | none => syncPhase2 rest led cnt
    else
      syncPhase2 rest led cnt

/-- One direction of `syncFollowersStorage` / `syncFollowingStorage`: both
loops, then the guarded save — the mutated ledger is persisted only when at
least one record was inactivated or one username updated; otherwise storage
keeps the ledger the call loaded.  Returns (result, persisted ledger). -/
def syncLedger (current : List ObservedUser) (led : Ledger) : SyncResult × Ledger :=
  let ids := current.map ObservedUser.userId
  let p1 := syncPhase1 ids led
  let p2 := syncPhase2 current p1.1 0
  (⟨p1.2, p2.2⟩, if p1.2.length > 0 ∨ p2.2 > 0 then p2.1 else led)

/-- `syncFollowersStorage(currentFollowers)` (dateUtils.js lines 966-1030). -/
def syncFollowersStorage (currentFollowers : List ObservedUser) (fd : FollowDates) :
    SyncResult × FollowDates :=
  let done := syncLedger currentFollowers fd.followers
  (done.1, { fd with followers := done.2 })

/-- `syncFollowingStorage(currentFollowing)` (dateUtils.js lines 894-958). -/
def syncFollowingStorage (currentFollowing : List ObservedUser) (fd : FollowDates) :
    SyncResult × FollowDates :=
  let done := syncLedger currentFollowing fd.following
  (done.1, { fd with following := done.2 })

/-- The ledger operations of a register → unfollow → reactivate cycle, as the
storage persists them. -/
inductive RelOp where
  | regNewFollowers (now : Nat) (obs : List ObservedUser)
  | regNewFollowing (now : Nat) (obs : List ObservedUser)
  | regFollow (now : Nat) (userId : Nat) (username : String)
  | regFollower (now : Nat) (userId : Nat) (username : String)
  | removeFollowingOp (userId : Nat)
  | removeFollowerOp (userId : Nat)

/-- The persisted `followDates` after one ledger operation. -/
def applyRelOp (fd : FollowDates) : RelOp → FollowDates
  | .regNewFollowers now obs => (registerNewFollowers now obs fd).1
  | .regNewFollowing now obs => (registerNewFollowing now obs fd).1
  | .regFollow now userId username => registerFollow now userId username fd
  | .regFollower now userId username => registerFollower now userId username fd
  | .removeFollowingOp userId => removeFollowing userId fd
  | .removeFollowerOp userId => removeFollower userId fd

/-! ## Schema migrations -/

/-- A value stored under a userId in `followDates` as `migrateDataIfNeeded`
(dateUtils.js lines 503-553) may find it: either a bare legacy timestamp
number, or a record object whose `isActive` field may still be absent. -/
inductive StoredVal where
  | num (n : Nat)
  | obj (timestamp : Nat) (username : String) (isActive : Option Bool)
deriving DecidableEq

/-- One record of `migrateDataIfNeeded`: a bare number becomes
`{ timestamp, username: "Unknown", isActive: true }`; an object without
`isActive` gains `isActive: true`; anything else passes through. -/
def migrateEntry : StoredVal → StoredVal
  | .num n => .obj n "Unknown" (some true)
  | .obj t u none => .obj t u (some true)
  | .obj t u (some b) => .obj t u (some b)

/-- `migrateDataIfNeeded(followDates)`: both collections record by record
(the write-back guard does not change the resulting stored value). -/
def migrateDataIfNeeded (fd : List (Nat × StoredVal) × List (Nat × StoredVal)) :
    List (Nat × StoredVal) × List (Nat × StoredVal) :=
  (fd.1.map (fun e => (e.1, migrateEntry e.2)), fd.2.map (fun e => (e.1, migrateEntry e.2)))

/-- A record value as `migrateV1ToV2` (storageVersioning.js lines 114-186)
reads it: a bare number, or an object whose `timestamp`, `username` and
`source` fields may each be absent. -/
inductive V1Val where
  | num (n : Nat)
  | obj (timestamp : Option Nat) (username : Option String) (source : Option String)
deriving DecidableEq

/-- The `followDates` value handed to `migrateV1ToV2`. -/
structure V1FollowDates where
  followers : List (Nat × V1Val)
  following : List (Nat × V1Val)
deriving DecidableEq

/-- `metadata.syncStats`. -/
structure SyncStats where
  totalSyncs : Nat
  lastSyncDuration : Nat
  averageSyncDuration : Nat
deriving DecidableEq

/-- One entry of `metadata.migrationHistory`. -/
structure MigrationEntry where
  fromVersion : Nat
  toVersion : Nat
  timestamp : Nat
  followersMigrated : Nat
  followingMigrated : Nat
deriving DecidableEq

/-- The `metadata` block `migrateV1ToV2` writes. -/
structure Metadata where
  version : Nat
  lastSync : Option Nat
  syncStats : SyncStats
  migrationHistory : List MigrationEntry
deriving DecidableEq

/-- The data a migration step maps: `followDates` plus the metadata block
(absent before the first v2 migration). -/
structure MigData where
  followDates : V1FollowDates
  metadata : Option Metadata
deriving DecidableEq

/-- JS `v || d` where `v` may be an absent or zero number field. -/
def jsOrNat (v : Option Nat) (d : Nat) : Nat :=
  match v with
  | some n => if n = 0 then d else n
  | none => d

/-- JS `v || d` where `v` may be an absent or empty string field. -/
def jsOrStr (v : Option String) (d : String) : String :=
  match v with
  | some s => if s = "" then d else s
  | none => d

/-- One record of `migrateV1ToV2`: a bare number keeps its timestamp verbatim
and gains `username: "Unknown"`, `source: "migration_v1"`; an object has each
field defaulted through JS `||` (an absent or falsy timestamp becomes
`Date.now()`). -/
def migrateV1Record (now : Nat) : V1Val → V1Val
  | .num n => .obj (some n) (some "Unknown") (some "migration_v1")
  | .obj t u s => .obj (some (jsOrNat t now)) (some (jsOrStr u "Unknown")) (some (jsOrStr s "migration_v1"))

/-- `migrateV1ToV2(data)`: rebuilds both collections record by record and
replaces the metadata block wholesale, stamping a fresh one-entry
`migrationHistory` with `timestamp: Date.now()` and the migrated record
counts. -/
def migrateV1ToV2 (now : Nat) (data : MigData) : MigData :=
  let mf := data.followDates.followers.map (fun e => (e.1, migrateV1Record now e.2))
  let mg := data.followDates.following.map (fun e => (e.1, migrateV1Record now e.2))
  { followDates := ⟨mf, mg⟩,
    metadata := some
      { version := 2, lastSync := none,
        syncStats := ⟨0, 0, 0⟩,
        migrationHistory := [⟨1, 2, now, mf.length, mg.length⟩] } }

/-! ## The offline queue (`offlineSupport.js`) -/

/-- The `data` of a queued operation: target identifiers plus the in-memory
credential (absent once stripped). -/
structure OperationData where
  userId : Nat
  targetUserId : Nat
  jwtToken : Option String
deriving DecidableEq

/-- A queued operation: `{ type, data }`. -/
structure QueuedOperation where
  type : String
  data : OperationData
deriving DecidableEq

/-- One element of `this.queue`: `{ id, operation, timestamp, retryCount,
maxRetries, nextRetry }` (ids are abstracted to numbers). -/
structure QueueItem where
  id : Nat
  operation : QueuedOperation
  timestamp : Nat
  retryCount : Nat
  maxRetries : Nat
  nextRetry : Nat
deriving DecidableEq

/-- `this.retryDelays = [1000, 5000, 15000, 30000, 60000]`. -/
def retryDelays : List Nat := [1000, 5000, 15000, 30000, 60000]

/-- `this.retryDelays[rc] || this.retryDelays[this.retryDelays.length - 1]`. -/
def retryDelay (rc : Nat) : Nat :=
  (retryDelays.get? rc).getD 60000

/-- `enqueue(operation)`'s fresh queue item: `retryCount: 0`,
`maxRetries: retryDelays.length - 1`, `nextRetry: now + retryDelays[0]`. -/
def mkQueueItem (id now : Nat) (op : QueuedOperation) : QueueItem :=
  ⟨id, op, now, 0, retryDelays.length - 1, now + 1000⟩

/-- `enqueue`'s queue update (offlineSupport.js lines 77-98): drop the oldest
entry when full, then append. -/
def enqueue (maxQueueSize : Nat) (q : List QueueItem) (item : QueueItem) : List QueueItem :=
  (if q.length ≥ maxQueueSize then q.drop 1 else q) ++ [item]

/-- One entry of the `results` array `processQueue` resolves with. -/
structure PassResult where
  id : Nat
  success : Bool
deriving DecidableEq

/-- One `processQueue()` pass (offlineSupport.js lines 103-163).  `sched id
attempt` tells whether `executeOperation` succeeds at that attempt of that
item.  Returns the attempts made in order as `(id, attempt, succeeded)`, the
`results` entries, and the queue left behind: the head is executed; on
success it is dequeued and the loop continues; on failure `retryCount` is
bumped and the item is either dequeued permanently (budget exhausted, loop
continues) or moved to the tail with a rescheduled `nextRetry`, ending the
pass. -/
def processPass (sched : Nat → Nat → Bool) (now : Nat) :
    List QueueItem → List (Nat × Nat × Bool) × List PassResult × List QueueItem
  | [] => ([], [], [])
  | item :: rest =>
    let attempt := item.retryCount + 1
    if sched item.id attempt then
      let done := processPass sched now rest
      ((item.id, attempt, true) :: done.1, ⟨item.id, true⟩ :: done.2.1, done.2.2)
    else
      if attempt > item.maxRetries then
        let done := processPass sched now rest
        ((item.id, attempt, false) :: done.1, ⟨item.id, false⟩ :: done.2.1, done.2.2)
      else
        ([(item.id, attempt, false)], [],
          rest ++ [{ item with retryCount := attempt, nextRetry := now + retryDelay attempt }])

/-- `persistQueue`'s per-item mapping (offlineSupport.js lines 230-248): the
stored copy has `operation.data.jwtToken` set to `undefined`, which the
storage serialisation drops. -/
def persistItem (it : QueueItem) : QueueItem :=
  { it with operation := { it.operation with data := { it.operation.data with jwtToken := none } } }

/-- The queue value `persistQueue` writes to `chrome.storage.local`. -/
def persistQueue (q : List QueueItem) : List QueueItem :=
  q.map persistItem

/-- A queue with every in-memory credential already absent. -/
def stripTokens (q : List QueueItem) : List QueueItem :=
  q.map (fun it =>
    { it with operation := { it.operation with data := { it.operation.data with jwtToken := none } } })

/-! ## The detail cache (`IntelligentCache`, background service worker) -/

/-- One value of `this.cache`: `{ value, expiresAt }` (cached payloads are
abstracted to numbers). -/
structure CacheEntry where
  value : Nat
  expiresAt : Nat
deriving DecidableEq

/-- The `IntelligentCache` state: the `cache` map, the `accessOrder` map
(key ↦ last access time, in key insertion order — JS `Map.set` on an existing
key does not move it), and the constructor parameters. -/
structure Cache where
  cache : List (Nat × CacheEntry)
  accessOrder : List (Nat × Nat)
  maxSize : Nat
  defaultTTL : Nat
deriving DecidableEq

/-- `new IntelligentCache(maxSize, defaultTTL)`. -/
def emptyCache (maxSize defaultTTL : Nat) : Cache :=
  ⟨[], [], maxSize, defaultTTL⟩

/-- `delete(key)`: remove the key from both maps. -/
def cacheDelete (c : Cache) (k : Nat) : Cache :=
  { c with cache := mapDel c.cache k, accessOrder := mapDel c.accessOrder k }

/-- `cleanup()`: walk the cache entries and `delete` every key whose entry
has `now > expiresAt`. -/
def cacheCleanup (now : Nat) (c : Cache) : Cache :=
  ((c.cache.filter (fun e => decide (now > e.2.expiresAt))).map Prod.fst).foldl cacheDelete c

/-- `set(key, value, ttl)`: when the cache is at capacity, first `cleanup()`;
if still at capacity, `delete` the first key of `accessOrder`
(`accessOrder.keys().next().value`; on an empty map that is `undefined` and
the delete is a no-op); then write both maps. -/
def cacheSet (now k v ttl : Nat) (c : Cache) : Cache :=
  let expiresAt := now + ttl
  let c1 :=
    if c.cache.length ≥ c.maxSize then
      let c2 := cacheCleanup now c
      if c2.cache.length ≥ c2.maxSize then
        match c2.accessOrder with
        | [] => c2
        | a :: _ => cacheDelete c2 a.1
      else c2
    else c
  { c1 with cache := mapSet c1.cache k ⟨v, expiresAt⟩, accessOrder := mapSet c1.accessOrder k now }

/-- `get(key)`: a missing key misses; an entry with `now > expiresAt` is
deleted and misses; otherwise the access time is refreshed (the key keeps its
`accessOrder` position) and the value returned. -/
def cacheGet (now k : Nat) (c : Cache) : Option Nat × Cache :=
  match mapFind c.cache k with
  | none => (none, c)
  | some e =>
    if now > e.expiresAt then (none, cacheDelete c k)
    else (some e.value, { c with accessOrder := mapSet c.accessOrder k now })

/-- `clear()`. -/
def cacheClear (c : Cache) : Cache :=
  { c with cache := [], accessOrder := [] }

/-- The cache's public operations, each stamped with the `Date.now()` at
which it runs. -/
inductive CacheOp where
  | setOp (now key value ttl : Nat)
  | getOp (now key : Nat)
  | delOp (key : Nat)
  | clearOp

/-- State transition of one cache operation. -/
def applyCacheOp (c : Cache) : CacheOp → Cache
  | .setOp now k v ttl => cacheSet now k v ttl c
  | .getOp now k => (cacheGet now k c).2
  | .delOp k => cacheDelete c k
  | .clearOp => cacheClear c

/-! ## Concrete fixtures for the counterexample and bug-evaluation runs -/

/-- A two-slot cache, as `new IntelligentCache(2, 21600000)`. -/
def lruCache0 : Cache := emptyCache 2 21600000

/-- Fill to capacity (keys 1 then 2), touch key 1 with a hitting `get`, then
insert key 3. -/
def lruScenario : List CacheOp :=
  [.setOp 0 1 10 1000, .setOp 1 2 20 1000, .getOp 2 1, .setOp 3 3 30 1000]

/-- The cache state the scenario ends in. -/
def lruFinal : Cache := lruScenario.foldl applyCacheOp lruCache0

/-- An execution schedule under which operation 1 fails its first attempt and
succeeds from the second on, while every other operation always succeeds. -/
def schedXY : Nat → Nat → Bool :=
  fun id attempt => if id = 1 then decide (attempt ≥ 2) else true

/-- Queued operation X (id 1). -/
def opX : QueueItem := mkQueueItem 1 0 ⟨"follow", ⟨7, 8, none⟩⟩

/-- Queued operation Y (id 2), enqueued after X. -/
def opY : QueueItem := mkQueueItem 2 0 ⟨"follow", ⟨7, 9, none⟩⟩

/-- First `processQueue` pass over `[X, Y]`. -/
def queuePass1 : List (Nat × Nat × Bool) × List PassResult × List QueueItem :=
  processPass schedXY 0 (enqueue 100 (enqueue 100 [] opX) opY)

/-- The next `processQueue` pass, over what the first left behind. -/
def queuePass2 : List (Nat × Nat × Bool) × List PassResult × List QueueItem :=
  processPass schedXY 2000 queuePass1.2.2

/-- A legacy record value whose bare-number form is a real (non-zero)
timestamp — `Date.now()` values are always positive. -/
def v1RecordSafe : V1Val → Prop
  | .num n => n ≠ 0
  | .obj _ _ _ => True

/-- The `IntelligentCache` state invariant: both maps have pairwise-distinct
keys, they hold exactly the same keys, and the entry count is within
capacity. -/
def CacheInv (c : Cache) : Prop :=
  (keysOf c.cache).Nodup ∧ (keysOf c.accessOrder).Nodup ∧
    (∀ k, k ∈ keysOf c.cache ↔ k ∈ keysOf c.accessOrder) ∧
    c.cache.length ≤ c.maxSize

/-! ## Map lemmas -/

theorem keysOf_nil {α : Type} : keysOf ([] : List (Nat × α)) = [] := rfl

theorem keysOf_cons {α : Type} (e : Nat × α) (rest : List (Nat × α)) :
    keysOf (e :: rest) = e.1 :: keysOf rest := rfl

theorem mapFind_mapSet_self {α : Type} (m : List (Nat × α)) (k : Nat) (v : α) :
    mapFind (mapSet m k v) k = some v := by
  induction m with
  | nil => simp [mapSet, mapFind]
  | cons e rest ih =>
    by_cases h : e.1 = k
    · simp [mapSet, h, mapFind]
    · simp [mapSet, h, mapFind, ih]

theorem mapFind_mapSet_ne {α : Type} (m : List (Nat × α)) (k j : Nat) (v : α) (h : j ≠ k) :
    mapFind (mapSet m k v) j = mapFind m j := by
  induction m with
  | nil =>
    have h1 : ¬ (k = j) := fun hk => h hk.symm
    simp [mapSet, mapFind, h1]
  | cons e rest ih =>
    by_cases he : e.1 = k
    · subst he
      have h1 : ¬ (e.1 = j) := fun hk => h hk.symm
      simp [mapSet, mapFind, h1]
    · simp only [mapSet, if_neg he, mapFind]
      by_cases hj : e.1 = j
      · simp [hj]
      · simp [hj, ih]

theorem keysOf_mapSet {α : Type} (m : List (Nat × α)) (k : Nat) (v : α) :
    keysOf (mapSet m k v) = if k ∈ keysOf m then keysOf m else keysOf m ++ [k] := by
  induction m with
  | nil => simp [mapSet, keysOf]
  | cons e rest ih =>
    by_cases h : e.1 = k
    · subst h
      simp [mapSet, keysOf_cons]
    · have hne : ¬ k = e.1 := fun hk => h hk.symm
      simp only [mapSet, if_neg h, keysOf_cons, ih, List.mem_cons]
      by_cases hk : k ∈ keysOf rest
      · simp [hk, hne]
      · simp [hk, hne]

theorem mem_keysOf_mapSet {α : Type} (m : List (Nat × α)) (k j : Nat) (v : α) :
    j ∈ keysOf (mapSet m k v) ↔ j ∈ keysOf m ∨ j = k := by
  rw [keysOf_mapSet]
  by_cases h : k ∈ keysOf m
  · simp only [h, if_true]
    constructor
    · exact Or.inl
    · rintro (hj | rfl)
      · exact hj
      · exact h
  · simp [h]

theorem length_mapSet {α : Type} (m : List (Nat × α)) (k : Nat) (v : α) :
    (mapSet m k v).length = if k ∈ keysOf m then m.length else m.length + 1 := by
  have h1 : (keysOf (mapSet m k v)).length = (mapSet m k v).length := List.length_map _ _
  have h2 : (keysOf m).length = m.length := List.length_map _ _
  rw [← h1, keysOf_mapSet]
  by_cases h : k ∈ keysOf m
  · simp [h, h2]
  · simp [h, h2]

theorem nodup_keysOf_mapSet {α : Type} (m : List (Nat × α)) (k : Nat) (v : α)
    (h : (keysOf m).Nodup) : (keysOf (mapSet m k v)).Nodup := by
  rw [keysOf_mapSet]
  by_cases hk : k ∈ keysOf m
  · simpa [hk] using h
  · simp only [hk, if_false]
    refine List.Nodup.append h (List.nodup_singleton k) ?_
    intro a ha hb
    rcases List.mem_singleton.mp hb with rfl
    exact hk ha

theorem mapDel_cons {α : Type} (e : Nat × α) (rest : List (Nat × α)) (k : Nat) :
    mapDel (e :: rest) k = if e.1 = k then mapDel rest k else e :: mapDel rest k := by
  by_cases h : e.1 = k
  · simp [mapDel, List.filter_cons, h]
  · simp [mapDel, List.filter_cons, h]

theorem mapDel_of_not_mem {α : Type} (m : List (Nat × α)) (k : Nat) (h : k ∉ keysOf m) :
    mapDel m k = m := by
  induction m with
  | nil => rfl
  | cons e rest ih =>
    rw [keysOf_cons, List.mem_cons] at h
    push_neg at h
    rw [mapDel_cons, if_neg (fun he => h.1 he.symm), ih h.2]

theorem keysOf_mapDel_sublist {α : Type} (m : List (Nat × α)) (k : Nat) :
    (keysOf (mapDel m k)).Sublist (keysOf m) :=
  List.Sublist.map Prod.fst (List.filter_sublist m)

theorem nodup_keysOf_mapDel {α : Type} (m : List (Nat × α)) (k : Nat)
    (h : (keysOf m).Nodup) : (keysOf (mapDel m k)).Nodup :=
  (keysOf_mapDel_sublist m k).nodup h

theorem mem_keysOf_mapDel {α : Type} (m : List (Nat × α)) (k j : Nat) :
    j ∈ keysOf (mapDel m k) ↔ j ∈ keysOf m ∧ j ≠ k := by
  induction m with
  | nil => simp [mapDel, keysOf]
  | cons e rest ih =>
    rw [mapDel_cons]
    by_cases h : e.1 = k
    · subst h
      rw [if_pos rfl, ih, keysOf_cons, List.mem_cons]
      constructor
      · rintro ⟨hj, hne⟩
        exact ⟨Or.inr hj, hne⟩
      · rintro ⟨rfl | hj, hne⟩
        · exact absurd rfl hne
        · exact ⟨hj, hne⟩
    · rw [if_neg h, keysOf_cons, keysOf_cons, List.mem_cons, List.mem_cons, ih]
      constructor
      · rintro (rfl | ⟨hj, hne⟩)
        · exact ⟨Or.inl rfl, h⟩
        · exact ⟨Or.inr hj, hne⟩
      · rintro ⟨rfl | hj, hne⟩
        · exact Or.inl rfl
        · exact Or.inr ⟨hj, hne⟩

theorem length_mapDel_le {α : Type} (m : List (Nat × α)) (k : Nat) :
    (mapDel m k).length ≤ m.length :=
  List.length_filter_le _ m

theorem length_mapDel_add_one {α : Type} (m : List (Nat × α)) (k : Nat)
    (hnd : (keysOf m).Nodup) (hk : k ∈ keysOf m) :
    (mapDel m k).length + 1 = m.length := by
  induction m with
  | nil => simp [keysOf] at hk
  | cons e rest ih =>
    rw [keysOf_cons, List.nodup_cons] at hnd
    rw [keysOf_cons, List.mem_cons] at hk
    rw [mapDel_cons]
    by_cases h : e.1 = k
    · subst h
      rw [if_pos rfl, mapDel_of_not_mem rest e.1 hnd.1]
      simp
    · rw [if_neg h]
      have hk' : k ∈ keysOf rest := by
        rcases hk with rfl | hk
        · exact absurd rfl h
        · exact hk
      have := ih hnd.2 hk'
      simp only [List.length_cons]
      omega

theorem mapFind_eq_none_iff {α : Type} (m : List (Nat × α)) (k : Nat) :
    mapFind m k = none ↔ k ∉ keysOf m := by
  induction m with
  | nil => simp [mapFind, keysOf]
  | cons e rest ih =>
    rw [keysOf_cons, List.mem_cons]
    by_cases h : e.1 = k
    · subst h
      simp [mapFind]
    · simp only [mapFind, if_neg h, ih]
      constructor
      · intro hk
        rintro (rfl | hj)
        · exact h rfl
        · exact hk hj
      · intro hk
        exact fun hj => hk (Or.inr hj)

theorem mem_keysOf_of_mapFind {α : Type} (m : List (Nat × α)) (k : Nat) (v : α)
    (h : mapFind m k = some v) : k ∈ keysOf m := by
  by_contra hk
  rw [(mapFind_eq_none_iff m k).mpr hk] at h
  exact Option.noConfusion h

/-! ## First-seen timestamp preservation (C1) -/

theorem registerNewCore_preserves (now : Nat) (obs : List ObservedUser) :
    ∀ (led : Ledger) (k : Nat) (r : FollowRec), mapFind led k = some r →
      ∃ r', mapFind (registerNewCore now obs led).1 k = some r' ∧ r'.timestamp = r.timestamp := by
  induction obs with
  | nil =>
    intro led k r h
    exact ⟨r, h, rfl⟩
  | cons o rest ih =>
    intro led k r h
    rcases hfind : mapFind led o.userId with _ | r0
    · have hk : k ≠ o.userId := by
        intro hk
        rw [hk, hfind] at h
        exact Option.noConfusion h
      have h1 : mapFind (mapSet led o.userId ⟨now, jsOr o.username "Unknown", true⟩) k = some r :=
        (mapFind_mapSet_ne led o.userId k _ hk).trans h
      simpa only [registerNewCore, hfind] using ih _ k r h1
    · by_cases hact : r0.isActive = false
      · by_cases hk : k = o.userId
        · have hr : r0 = r := by
            rw [hk, hfind] at h
            exact (Option.some.injEq _ _).mp h
          subst hr
          have h1 : mapFind
              (mapSet led o.userId { r0 with isActive := true, username := jsOr o.username r0.username }) k =
              some { r0 with isActive := true, username := jsOr o.username r0.username } := by
            rw [hk]
            exact mapFind_mapSet_self _ _ _
          obtain ⟨r', hr', ht⟩ := ih _ k _ h1
          refine ⟨r', ?_, ht⟩
          simpa only [registerNewCore, hfind, if_pos hact] using hr'
        · have h1 : mapFind
              (mapSet led o.userId { r0 with isActive := true, username := jsOr o.username r0.username }) k =
              some r := (mapFind_mapSet_ne _ _ _ _ hk).trans h
          obtain ⟨r', hr', ht⟩ := ih _ k r h1
          exact ⟨r', by simpa only [registerNewCore, hfind, if_pos hact] using hr', ht⟩
      · obtain ⟨r', hr', ht⟩ := ih led k r h
        exact ⟨r', by simpa only [registerNewCore, hfind, if_neg hact] using hr', ht⟩

theorem registerExplicitCore_preserves (now userId : Nat) (username : String)
    (led : Ledger) (k : Nat) (r : FollowRec) (h : mapFind led k = some r) :
    ∃ r', mapFind (registerExplicitCore now userId username led) k = some r' ∧
      r'.timestamp = r.timestamp := by
  rcases hfind : mapFind led userId with _ | r0
  · have hk : k ≠ userId := by
      intro hk
      rw [hk, hfind] at h
      exact Option.noConfusion h
    refine ⟨r, ?_, rfl⟩
    simpa only [registerExplicitCore, hfind] using (mapFind_mapSet_ne led userId k _ hk).trans h
  · by_cases hk : k = userId
    · have hr : r0 = r := by
        rw [hk, hfind] at h
        exact (Option.some.injEq _ _).mp h
      subst hr
      refine ⟨{ r0 with isActive := true, username := jsOr username r0.username }, ?_, rfl⟩
      simp only [registerExplicitCore, hfind, hk]
      exact mapFind_mapSet_self led userId _
    · refine ⟨r, ?_, rfl⟩
      simpa only [registerExplicitCore, hfind] using (mapFind_mapSet_ne led userId k _ hk).trans h

theorem setInactiveCore_preserves (userId : Nat) (led : Ledger) (k : Nat) (r : FollowRec)
    (h : mapFind led k = some r) :
    ∃ r', mapFind (setInactiveCore userId led) k = some r' ∧ r'.timestamp = r.timestamp := by
  rcases hfind : mapFind led userId with _ | r0
  · exact ⟨r, by simpa only [setInactiveCore, hfind] using h, rfl⟩
  · by_cases hk : k = userId
    · have hr : r0 = r := by
        rw [hk, hfind] at h
        exact (Option.some.injEq _ _).mp h
      subst hr
      refine ⟨{ r0 with isActive := false }, ?_, rfl⟩
      simp only [setInactiveCore, hfind, hk]
      exact mapFind_mapSet_self led userId _
    · refine ⟨r, ?_, rfl⟩
      simpa only [setInactiveCore, hfind] using (mapFind_mapSet_ne led userId k _ hk).trans h

theorem applyRelOp_preserves (op : RelOp) (fd : FollowDates) (k : Nat) (r : FollowRec) :
    (mapFind fd.followers k = some r →
      ∃ r', mapFind (applyRelOp fd op).followers k = some r' ∧ r'.timestamp = r.timestamp) ∧
    (mapFind fd.following k = some r →
      ∃ r', mapFind (applyRelOp fd op).following k = some r' ∧ r'.timestamp = r.timestamp) := by
  cases op with
  | regNewFollowers now obs =>
    exact ⟨fun h => registerNewCore_preserves now obs fd.followers k r h, fun h => ⟨r, h, rfl⟩⟩
  | regNewFollowing now obs =>
    exact ⟨fun h => ⟨r, h, rfl⟩, fun h => registerNewCore_preserves now obs fd.following k r h⟩
  | regFollow now userId username =>
    exact ⟨fun h => ⟨r, h, rfl⟩,
      fun h => registerExplicitCore_preserves now userId username fd.following k r h⟩
  | regFollower now userId username =>
    exact ⟨fun h => registerExplicitCore_preserves now userId username fd.followers k r h,
      fun h => ⟨r, h, rfl⟩⟩
  | removeFollowingOp userId =>
    exact ⟨fun h => ⟨r, h, rfl⟩, fun h => setInactiveCore_preserves userId fd.following k r h⟩
  | removeFollowerOp userId =>
    exact ⟨fun h => setInactiveCore_preserves userId fd.followers k r h, fun h => ⟨r, h, rfl⟩⟩

/-- Claim C1: for every subjectId and direction, the first-seen timestamp
assigned when the subject is first registered is never changed afterwards:
whenever a record is present in a direction's collection, then after any
sequence of `registerNewFollowers` / `registerNewFollowing`,
`registerFollow` / `registerFollower` and `removeFollowing` /
`removeFollower` operations the subject is still present and its stored
`timestamp` is unchanged — covering any number of register → setInactive →
reactivation cycles. -/
theorem firstSeenAt_immutable :
    ∀ (ops : List RelOp) (fd : FollowDates) (k : Nat) (r : FollowRec),
      (mapFind fd.followers k = some r →
        ∃ r', mapFind (ops.foldl applyRelOp fd).followers k = some r' ∧
          r'.timestamp = r.timestamp) ∧
      (mapFind fd.following k = some r →
        ∃ r', mapFind (ops.foldl applyRelOp fd).following k = some r' ∧
          r'.timestamp = r.timestamp) := by
  intro ops
  induction ops with
  | nil =>
    intro fd k r
    exact ⟨fun h => ⟨r, h, rfl⟩, fun h => ⟨r, h, rfl⟩⟩
  | cons op rest ih =>
    intro fd k r
    constructor
    · intro h
      obtain ⟨r1, h1, t1⟩ := (applyRelOp_preserves op fd k r).1 h
      obtain ⟨r2, h2, t2⟩ := (ih (applyRelOp fd op) k r1).1 h1
      exact ⟨r2, h2, t2.trans t1⟩
    · intro h
      obtain ⟨r1, h1, t1⟩ := (applyRelOp_preserves op fd k r).2 h
      obtain ⟨r2, h2, t2⟩ := (ih (applyRelOp fd op) k r1).2 h1
      exact ⟨r2, h2, t2.trans t1⟩

/-! ## Sync lemmas (C2, C4, C5) -/

theorem mapFind_mem {α : Type} (m : List (Nat × α)) (k : Nat) (v : α)
    (h : mapFind m k = some v) : (k, v) ∈ m := by
  induction m with
  | nil => exact Option.noConfusion h
  | cons e rest ih =>
    by_cases he : e.1 = k
    · rw [mapFind, if_pos he] at h
      have hv : e.2 = v := (Option.some.injEq _ _).mp h
      have : e = (k, v) := Prod.ext he hv
      exact this ▸ List.mem_cons_self e rest
    · rw [mapFind, if_neg he] at h
      exact List.mem_cons_of_mem e (ih h)

theorem mem_mapSet {α : Type} (m : List (Nat × α)) (k : Nat) (v : α) (e : Nat × α)
    (h : e ∈ mapSet m k v) : e ∈ m ∨ e = (k, v) := by
  induction m with
  | nil =>
    right
    simpa [mapSet] using h
  | cons e0 rest ih =>
    by_cases he : e0.1 = k
    · rw [mapSet, if_pos he] at h
      rcases List.mem_cons.mp h with rfl | hm
      · exact Or.inr rfl
      · exact Or.inl (List.mem_cons_of_mem e0 hm)
    · rw [mapSet, if_neg he] at h
      rcases List.mem_cons.mp h with rfl | hm
      · exact Or.inl (List.mem_cons_self _ _)
      · rcases ih hm with h1 | h1
        · exact Or.inl (List.mem_cons_of_mem e0 h1)
        · exact Or.inr h1

theorem keysOf_syncPhase1 (ids : List Nat) (led : Ledger) :
    keysOf (syncPhase1 ids led).1 = keysOf led := by
  induction led with
  | nil => rfl
  | cons e rest ih =>
    by_cases h : e.1 ∈ ids
    · simp [syncPhase1, h, keysOf_cons, ih]
    · by_cases ha : e.2.isActive = true
      · simp [syncPhase1, h, ha, keysOf_cons, ih]
      · simp [syncPhase1, h, ha, keysOf_cons, ih]

theorem keysOf_syncPhase2 (cur : List ObservedUser) :
    ∀ (led : Ledger) (cnt : Nat), keysOf (syncPhase2 cur led cnt).1 = keysOf led := by
  induction cur with
  | nil => intro led cnt; rfl
  | cons u rest ih =>
    intro led cnt
    by_cases hu : u.userId ≠ 0 ∧ u.username ≠ ""
    · rcases hfind : mapFind led u.userId with _ | r
      · simp [syncPhase2, hu, hfind, ih]
      · have hmem : u.userId ∈ keysOf led := mem_keysOf_of_mapFind led u.userId r hfind
        by_cases hname : r.username = "" ∨ r.username = "Unknown" ∨ r.username ≠ u.username
        · rw [show syncPhase2 (u :: rest) led cnt =
              syncPhase2 rest (mapSet led u.userId { r with username := u.username, isActive := true }) (cnt + 1) by
            simp [syncPhase2, hu, hfind, hname]]
          rw [ih, keysOf_mapSet, if_pos hmem]
        · rw [show syncPhase2 (u :: rest) led cnt =
              syncPhase2 rest (mapSet led u.userId { r with isActive := true }) cnt by
            simp [syncPhase2, hu, hfind, hname]]
          rw [ih, keysOf_mapSet, if_pos hmem]
    · simp [syncPhase2, hu, ih]

theorem mapFind_syncPhase1_not_mem (ids : List Nat) (led : Ledger) (k : Nat) (hk : k ∉ ids) :
    mapFind (syncPhase1 ids led).1 k =
      (mapFind led k).map (fun r => { r with isActive := false }) := by
  induction led with
  | nil => rfl
  | cons e rest ih =>
    by_cases hek : e.1 = k
    · have h : e.1 ∉ ids := hek ▸ hk
      by_cases ha : e.2.isActive = true
      · simp [syncPhase1, h, hk, ha, mapFind, hek]
      · simp [syncPhase1, h, hk, ha, mapFind, hek]
    · by_cases h : e.1 ∈ ids
      · simp [syncPhase1, h, mapFind, hek, ih]
      · by_cases ha : e.2.isActive = true
        · simp [syncPhase1, h, ha, mapFind, hek, ih]
        · simp [syncPhase1, h, ha, mapFind, hek, ih]

theorem mapFind_syncPhase2_not_mem (cur : List ObservedUser) :
    ∀ (led : Ledger) (cnt : Nat) (k : Nat), k ∉ cur.map ObservedUser.userId →
      mapFind (syncPhase2 cur led cnt).1 k = mapFind led k := by
  induction cur with
  | nil => intro led cnt k _; rfl
  | cons u rest ih =>
    intro led cnt k hk
    rw [List.map_cons, List.mem_cons] at hk
    push_neg at hk
    by_cases hu : u.userId ≠ 0 ∧ u.username ≠ ""
    · rcases hfind : mapFind led u.userId with _ | r
      · simp only [syncPhase2, if_pos hu, hfind]
        exact ih led cnt k hk.2
      · by_cases hname : r.username = "" ∨ r.username = "Unknown" ∨ r.username ≠ u.username
        · rw [show syncPhase2 (u :: rest) led cnt =
              syncPhase2 rest (mapSet led u.userId { r with username := u.username, isActive := true }) (cnt + 1) by
            simp [syncPhase2, hu, hfind, hname]]
          rw [ih _ _ k hk.2, mapFind_mapSet_ne led u.userId k _ hk.1]
        · rw [show syncPhase2 (u :: rest) led cnt =
              syncPhase2 rest (mapSet led u.userId { r with isActive := true }) cnt by
            simp [syncPhase2, hu, hfind, hname]]
          rw [ih _ _ k hk.2, mapFind_mapSet_ne led u.userId k _ hk.1]
    · simp only [syncPhase2, if_neg hu]
      exact ih led cnt k hk.2

theorem syncPhase1_inact_nil_iff (ids : List Nat) (led : Ledger) :
    (syncPhase1 ids led).2 = [] ↔ ∀ e ∈ led, e.1 ∈ ids ∨ e.2.isActive = false := by
  induction led with
  | nil => simp [syncPhase1]
  | cons e rest ih =>
    by_cases h : e.1 ∈ ids
    · simp [syncPhase1, h, ih]
    · by_cases ha : e.2.isActive = true
      · simp [syncPhase1, h, ha]
      · have ha' : e.2.isActive = false := by
          cases hb : e.2.isActive
          · rfl
          · exact absurd hb ha
        simp [syncPhase1, h, ha, ih, ha']

theorem syncPhase1_mem_inactive (ids : List Nat) (led : Ledger) (e : Nat × FollowRec)
    (he : e ∈ (syncPhase1 ids led).1) (hk : e.1 ∉ ids) : e.2.isActive = false := by
  induction led with
  | nil => exact absurd he (by simp [syncPhase1])
  | cons e0 rest ih =>
    by_cases h : e0.1 ∈ ids
    · rw [show (syncPhase1 ids (e0 :: rest)).1 =
          (e0.1, { e0.2 with isActive := true }) :: (syncPhase1 ids rest).1 by
        simp [syncPhase1, h]] at he
      rcases List.mem_cons.mp he with rfl | hm
      · exact absurd h hk
      · exact ih hm
    · have hshape : (syncPhase1 ids (e0 :: rest)).1 =
          (e0.1, { e0.2 with isActive := false }) :: (syncPhase1 ids rest).1 := by
        by_cases ha : e0.2.isActive = true
        · simp [syncPhase1, h, ha]
        · simp [syncPhase1, h, ha]
      rw [hshape] at he
      rcases List.mem_cons.mp he with rfl | hm
      · rfl
      · exact ih hm

theorem syncPhase2_mem_untouched (cur : List ObservedUser) :
    ∀ (led : Ledger) (cnt : Nat) (e : Nat × FollowRec),
      e ∈ (syncPhase2 cur led cnt).1 → e.1 ∉ cur.map ObservedUser.userId → e ∈ led := by
  induction cur with
  | nil => intro led cnt e he _; exact he
  | cons u rest ih =>
    intro led cnt e he hk
    rw [List.map_cons, List.mem_cons] at hk
    push_neg at hk
    by_cases hu : u.userId ≠ 0 ∧ u.username ≠ ""
    · rcases hfind : mapFind led u.userId with _ | r
      · rw [show syncPhase2 (u :: rest) led cnt = syncPhase2 rest led cnt by
          simp [syncPhase2, hu, hfind]] at he
        exact ih led cnt e he hk.2
      · by_cases hname : r.username = "" ∨ r.username = "Unknown" ∨ r.username ≠ u.username
        · rw [show syncPhase2 (u :: rest) led cnt =
              syncPhase2 rest (mapSet led u.userId { r with username := u.username, isActive := true }) (cnt + 1) by
            simp [syncPhase2, hu, hfind, hname]] at he
          rcases mem_mapSet _ _ _ e (ih _ _ e he hk.2) with hm | hm
          · exact hm
          · exact absurd (congrArg Prod.fst hm) hk.1
        · rw [show syncPhase2 (u :: rest) led cnt =
              syncPhase2 rest (mapSet led u.userId { r with isActive := true }) cnt by
            simp [syncPhase2, hu, hfind, hname]] at he
          rcases mem_mapSet _ _ _ e (ih _ _ e he hk.2) with hm | hm
          · exact hm
          · exact absurd (congrArg Prod.fst hm) hk.1
    · rw [show syncPhase2 (u :: rest) led cnt = syncPhase2 rest led cnt by
        simp [syncPhase2, hu]] at he
      exact ih led cnt e he hk.2

theorem keysOf_syncLedger (cur : List ObservedUser) (led : Ledger) :
    keysOf (syncLedger cur led).2 = keysOf led := by
  simp only [syncLedger]
  split
  · rw [keysOf_syncPhase2, keysOf_syncPhase1]
  · rfl

theorem length_syncLedger (cur : List ObservedUser) (led : Ledger) :
    ((syncLedger cur led).2).length = led.length := by
  have h := congrArg List.length (keysOf_syncLedger cur led)
  simpa [keysOf] using h

theorem mapFind_syncLedger_absent (cur : List ObservedUser) (led : Ledger) (k : Nat)
    (r : FollowRec) (hk : k ∉ cur.map ObservedUser.userId) (h : mapFind led k = some r) :
    mapFind (syncLedger cur led).2 k = some { r with isActive := false } := by
  simp only [syncLedger]
  split
  · rw [mapFind_syncPhase2_not_mem cur _ 0 k hk, mapFind_syncPhase1_not_mem _ _ k hk, h]
    rfl
  · next hg =>
    push_neg at hg
    have hinact : (syncPhase1 (cur.map ObservedUser.userId) led).2 = [] :=
      List.length_eq_zero.mp (by omega)
    rcases (syncPhase1_inact_nil_iff _ led).mp hinact (k, r) (mapFind_mem led k r h) with hm | hi
    · exact absurd hm hk
    · have hr : { r with isActive := false } = r := by
        cases r
        simp only at hi
        rw [hi]
      rw [h, hr]

/-- Claim C2: neither `syncFollowersStorage` nor `syncFollowingStorage` ever
removes a ledger entry: for every snapshot the persisted collection for the
synced direction keeps exactly the same key list (so its size is
non-decreasing), and every stored subject absent from the snapshot is marked
inactive rather than deleted. -/
theorem sync_no_delete :
    ∀ (snapshot : List ObservedUser) (fd : FollowDates) (k : Nat) (r : FollowRec),
      (keysOf (syncFollowersStorage snapshot fd).2.followers = keysOf fd.followers ∧
        fd.followers.length ≤ (syncFollowersStorage snapshot fd).2.followers.length ∧
        (mapFind fd.followers k = some r → k ∉ snapshot.map ObservedUser.userId →
          mapFind (syncFollowersStorage snapshot fd).2.followers k =
            some { r with isActive := false })) ∧
      (keysOf (syncFollowingStorage snapshot fd).2.following = keysOf fd.following ∧
        fd.following.length ≤ (syncFollowingStorage snapshot fd).2.following.length ∧
        (mapFind fd.following k = some r → k ∉ snapshot.map ObservedUser.userId →
          mapFind (syncFollowingStorage snapshot fd).2.following k =
            some { r with isActive := false })) := by
  intro snapshot fd k r
  refine ⟨⟨?_, ?_, ?_⟩, ⟨?_, ?_, ?_⟩⟩
  · exact keysOf_syncLedger snapshot fd.followers
  · exact le_of_eq (length_syncLedger snapshot fd.followers).symm
  · exact fun h hk => mapFind_syncLedger_absent snapshot fd.followers k r hk h
  · exact keysOf_syncLedger snapshot fd.following
  · exact le_of_eq (length_syncLedger snapshot fd.following).symm
  · exact fun h hk => mapFind_syncLedger_absent snapshot fd.following k r hk h

theorem syncLedger_entry_condition (cur : List ObservedUser) (led : Ledger)
    (e : Nat × FollowRec) (he : e ∈ (syncLedger cur led).2)
    (hk : e.1 ∉ cur.map ObservedUser.userId) : e.2.isActive = false := by
  revert he
  simp only [syncLedger]
  split
  · intro he
    exact syncPhase1_mem_inactive _ led e (syncPhase2_mem_untouched cur _ 0 e he hk) hk
  · next hg =>
    intro he
    push_neg at hg
    have hinact : (syncPhase1 (cur.map ObservedUser.userId) led).2 = [] :=
      List.length_eq_zero.mp (by omega)
    rcases (syncPhase1_inact_nil_iff _ led).mp hinact e he with hm | hi
    · exact absurd hm hk
    · exact hi

theorem syncLedger_inact_twice (cur : List ObservedUser) (led : Ledger) :
    (syncLedger cur (syncLedger cur led).2).1.inactivatedRecords = [] := by
  have hcond : ∀ e ∈ (syncLedger cur led).2,
      e.1 ∈ cur.map ObservedUser.userId ∨ e.2.isActive = false := by
    intro e he
    by_cases hk : e.1 ∈ cur.map ObservedUser.userId
    · exact Or.inl hk
    · exact Or.inr (syncLedger_entry_condition cur led e he hk)
  show (syncPhase1 (cur.map ObservedUser.userId) ((syncLedger cur led).2)).2 = []
  exact (syncPhase1_inact_nil_iff _ _).mpr hcond

/-- Claim C4: calling `syncFollowersStorage` / `syncFollowingStorage` twice
in a row with the same observed snapshot yields an empty
`inactivatedRecords` list on the second call — a subject already inactive
and still absent from the snapshot is never reported again. -/
theorem sync_double_report_guard :
    ∀ (snapshot : List ObservedUser) (fd : FollowDates),
      (syncFollowersStorage snapshot
          (syncFollowersStorage snapshot fd).2).1.inactivatedRecords = [] ∧
      (syncFollowingStorage snapshot
          (syncFollowingStorage snapshot fd).2).1.inactivatedRecords = [] := by
  intro snapshot fd
  exact ⟨syncLedger_inact_twice snapshot fd.followers,
    syncLedger_inact_twice snapshot fd.following⟩

/-- Claim C5 evaluation: a previously inactive subject (id 1, username
"alice") that reappears in the snapshot with its stored username, when
nothing else changes, is NOT persisted as active — both syncs leave the
stored ledger byte-identical, with `isActive = false`, because the save is
guarded by `inactivatedRecords.length > 0 || updatedUsernames > 0`. -/
theorem sync_reappearing_inactive_not_persisted :
    (syncFollowersStorage [⟨1, "alice"⟩]
        ⟨[(1, ⟨100, "alice", false⟩)], []⟩).2 = ⟨[(1, ⟨100, "alice", false⟩)], []⟩ ∧
    (syncFollowingStorage [⟨1, "alice"⟩]
        ⟨[], [(1, ⟨100, "alice", false⟩)]⟩).2 = ⟨[], [(1, ⟨100, "alice", false⟩)]⟩ ∧
    (syncFollowersStorage [⟨1, "alice"⟩]
        ⟨[(1, ⟨100, "alice", false⟩)], []⟩).1 = ⟨[], 0⟩ := by
  exact ⟨rfl, rfl, rfl⟩

/-! ## registerNew characterisation (C3) -/

theorem registerNewCore_untouched (now : Nat) (obs : List ObservedUser) :
    ∀ (led : Ledger) (k : Nat), k ∉ obs.map ObservedUser.userId →
      mapFind (registerNewCore now obs led).1 k = mapFind led k := by
  induction obs with
  | nil => intro led k _; rfl
  | cons o rest ih =>
    intro led k hk
    rw [List.map_cons, List.mem_cons] at hk
    push_neg at hk
    rcases hfind : mapFind led o.userId with _ | r
    · simp only [registerNewCore, hfind]
      rw [ih _ k hk.2, mapFind_mapSet_ne led o.userId k _ hk.1]
    · by_cases hact : r.isActive = false
      · simp only [registerNewCore, hfind, if_pos hact]
        rw [ih _ k hk.2, mapFind_mapSet_ne led o.userId k _ hk.1]
      · simp only [registerNewCore, hfind, if_neg hact]
        exact ih led k hk.2

theorem registerNewCore_new_list (now : Nat) (obs : List ObservedUser) :
    ∀ (led : Ledger), (obs.map ObservedUser.userId).Nodup →
      (registerNewCore now obs led).2 =
        (obs.filter (fun o => (mapFind led o.userId).isNone)).map (fun o => (o, now)) := by
  induction obs with
  | nil => intro led _; rfl
  | cons o rest ih =>
    intro led hnd
    rw [List.map_cons, List.nodup_cons] at hnd
    have hfc : ∀ o' ∈ rest, o'.userId ≠ o.userId := by
      intro o' ho' heq
      exact hnd.1 (heq ▸ List.mem_map_of_mem ObservedUser.userId ho')
    have hfilter : ∀ (led1 : Ledger),
        (∀ o' ∈ rest, mapFind led1 o'.userId = mapFind led o'.userId) →
        rest.filter (fun o' => (mapFind led1 o'.userId).isNone) =
          rest.filter (fun o' => (mapFind led o'.userId).isNone) := by
      intro led1 hsame
      apply List.filter_congr
      intro o' ho'
      rw [hsame o' ho']
    rcases hfind : mapFind led o.userId with _ | r
    · simp only [registerNewCore, hfind]
      rw [ih _ hnd.2, List.filter_cons]
      simp only [hfind, Option.isNone_none, if_pos]
      rw [List.map_cons]
      congr 1
      rw [hfilter _ (fun o' ho' => mapFind_mapSet_ne led o.userId o'.userId _ (hfc o' ho'))]
    · by_cases hact : r.isActive = false
      · simp only [registerNewCore, hfind, if_pos hact]
        rw [ih _ hnd.2, List.filter_cons]
        simp only [hfind, Option.isNone_some, Bool.false_eq_true, if_false]
        rw [hfilter _ (fun o' ho' => mapFind_mapSet_ne led o.userId o'.userId _ (hfc o' ho'))]
      · simp only [registerNewCore, hfind, if_neg hact]
        rw [ih _ hnd.2, List.filter_cons]
        simp only [hfind, Option.isNone_some, Bool.false_eq_true, if_false]

theorem registerNewCore_reactivates (now : Nat) (obs : List ObservedUser) :
    ∀ (led : Ledger) (o : ObservedUser) (r : FollowRec),
      (obs.map ObservedUser.userId).Nodup → o ∈ obs →
      mapFind led o.userId = some r → r.isActive = false →
      mapFind (registerNewCore now obs led).1 o.userId =
        some { r with isActive := true, username := jsOr o.username r.username } := by
  induction obs with
  | nil =>
    intro led o r _ ho _ _
    exact absurd ho (List.not_mem_nil o)
  | cons o0 rest ih =>
    intro led o r hnd ho hfind hact
    rw [List.map_cons, List.nodup_cons] at hnd
    rcases List.mem_cons.mp ho with rfl | ho'
    · have hkr : o.userId ∉ rest.map ObservedUser.userId := hnd.1
      simp only [registerNewCore, hfind, if_pos hact]
      rw [registerNewCore_untouched now rest _ o.userId hkr]
      exact mapFind_mapSet_self led o.userId _
    · have hne' : o.userId ≠ o0.userId := by
        intro heq
        exact hnd.1 (heq ▸ List.mem_map_of_mem ObservedUser.userId ho')
      rcases hfind0 : mapFind led o0.userId with _ | r0
      · simp only [registerNewCore, hfind0]
        refine ih _ o r hnd.2 ho' ?_ hact
        rw [mapFind_mapSet_ne led o0.userId o.userId _ hne']
        exact hfind
      · by_cases hact0 : r0.isActive = false
        · simp only [registerNewCore, hfind0, if_pos hact0]
          refine ih _ o r hnd.2 ho' ?_ hact
          rw [mapFind_mapSet_ne led o0.userId o.userId _ hne']
          exact hfind
        · simp only [registerNewCore, hfind0, if_neg hact0]
          exact ih led o r hnd.2 ho' hfind hact

theorem registerNewCore_claim (now : Nat) (obs : List ObservedUser) (led : Ledger)
    (hnd : (obs.map ObservedUser.userId).Nodup) :
    (registerNewCore now obs led).2 =
        (obs.filter (fun o => (mapFind led o.userId).isNone)).map (fun o => (o, now)) ∧
      ∀ o ∈ obs, ∀ r : FollowRec, mapFind led o.userId = some r → r.isActive = false →
        mapFind (registerNewCore now obs led).1 o.userId =
            some { r with isActive := true, username := jsOr o.username r.username } ∧
          ∀ p ∈ (registerNewCore now obs led).2, p.1.userId ≠ o.userId := by
  refine ⟨registerNewCore_new_list now obs led hnd, ?_⟩
  intro o ho r hfind hact
  refine ⟨registerNewCore_reactivates now obs led o r hnd ho hfind hact, ?_⟩
  intro p hp heq
  rw [registerNewCore_new_list now obs led hnd] at hp
  rcases List.mem_map.mp hp with ⟨o', ho', rfl⟩
  rcases List.mem_filter.mp ho' with ⟨_, hnone⟩
  rw [show o'.userId = o.userId from heq, hfind] at hnone
  exact Bool.noConfusion hnone

/-- Claim C3: `registerNewFollowers` / `registerNewFollowing` return exactly
the genuinely new insertions — the observed records (snapshots carry
pairwise-distinct userIds) whose subject was absent from that direction's
collection, each stamped with its follow date `now`; a subject already
present with `isActive = false` is reactivated (`isActive` set to true,
username refreshed from the observation when non-empty, timestamp untouched)
and does not appear in the returned list. -/
theorem registerNew_returns_exactly_new (now : Nat) (obs : List ObservedUser) (fd : FollowDates)
    (hnd : (obs.map ObservedUser.userId).Nodup) :
    ((registerNewFollowers now obs fd).2 =
        (obs.filter (fun o => (mapFind fd.followers o.userId).isNone)).map (fun o => (o, now)) ∧
      ∀ o ∈ obs, ∀ r : FollowRec,
        mapFind fd.followers o.userId = some r → r.isActive = false →
        mapFind (registerNewFollowers now obs fd).1.followers o.userId =
            some { r with isActive := true, username := jsOr o.username r.username } ∧
          ∀ p ∈ (registerNewFollowers now obs fd).2, p.1.userId ≠ o.userId) ∧
    ((registerNewFollowing now obs fd).2 =
        (obs.filter (fun o => (mapFind fd.following o.userId).isNone)).map (fun o => (o, now)) ∧
      ∀ o ∈ obs, ∀ r : FollowRec,
        mapFind fd.following o.userId = some r → r.isActive = false →
        mapFind (registerNewFollowing now obs fd).1.following o.userId =
            some { r with isActive := true, username := jsOr o.username r.username } ∧
          ∀ p ∈ (registerNewFollowing now obs fd).2, p.1.userId ≠ o.userId) :=
  ⟨registerNewCore_claim now obs fd.followers hnd, registerNewCore_claim now obs fd.following hnd⟩

/-- Witness for C3 at a concrete input: one observed user with a fresh id is
returned as the single new registration. -/
theorem registerNew_returns_exactly_new_witness :
    (registerNewFollowers 5 [⟨1, "a"⟩] ⟨[], []⟩).2 = [(⟨1, "a"⟩, 5)] :=
  (registerNew_returns_exactly_new 5 [⟨1, "a"⟩] ⟨[], []⟩ (by decide)).1.1.trans (by decide)

/-! ## Migration idempotency (C7) -/

theorem jsOrNat_idem (t : Option Nat) (d : Nat) :
    jsOrNat (some (jsOrNat t d)) d = jsOrNat t d := by
  rcases t with _ | n
  · simp [jsOrNat]
  · by_cases h : n = 0
    · simp [jsOrNat, h]
    · simp [jsOrNat, h]

theorem jsOrStr_idem (u : Option String) (d : String) :
    jsOrStr (some (jsOrStr u d)) d = jsOrStr u d := by
  rcases u with _ | s
  · simp [jsOrStr]
  · by_cases h : s = ""
    · simp [jsOrStr, h]
    · simp [jsOrStr, h]

theorem migrateEntry_idem (v : StoredVal) : migrateEntry (migrateEntry v) = migrateEntry v := by
  rcases v with n | ⟨t, u, a⟩
  · rfl
  · rcases a with _ | b
    · rfl
    · rfl

theorem migrateV1Record_idem (now : Nat) (v : V1Val) (hv : v1RecordSafe v) :
    migrateV1Record now (migrateV1Record now v) = migrateV1Record now v := by
  rcases v with n | ⟨t, u, s⟩
  · have hn : n ≠ 0 := hv
    simp [migrateV1Record, jsOrNat, jsOrStr, hn]
  · simp [migrateV1Record, jsOrNat_idem, jsOrStr_idem]

theorem migrateV1ToV2_idem (now : Nat) (d : MigData)
    (hf : ∀ e ∈ d.followDates.followers, v1RecordSafe e.2)
    (hg : ∀ e ∈ d.followDates.following, v1RecordSafe e.2) :
    migrateV1ToV2 now (migrateV1ToV2 now d) = migrateV1ToV2 now d := by
  have key : ∀ (l : List (Nat × V1Val)), (∀ e ∈ l, v1RecordSafe e.2) →
      ((l.map (fun e => (e.1, migrateV1Record now e.2))).map
        (fun e => (e.1, migrateV1Record now e.2))) =
        l.map (fun e => (e.1, migrateV1Record now e.2)) := by
    intro l hl
    rw [List.map_map]
    apply List.map_congr_left
    intro e he
    simp only [Function.comp]
    rw [migrateV1Record_idem now e.2 (hl e he)]
  simp only [migrateV1ToV2]
  rw [key _ hf, key _ hg]

/-- Counterexample to Claim C7 as stated: running `migrateV1ToV2` a second
time on its own output — the clock having moved from 100 to 200 — does not
return the same bytes, because the rebuilt `metadata.migrationHistory` entry
is stamped with the later `Date.now()`. -/
theorem migrateV1ToV2_not_idempotent_counterexample :
    migrateV1ToV2 200 (migrateV1ToV2 100 ⟨⟨[], []⟩, none⟩) ≠
      migrateV1ToV2 100 ⟨⟨[], []⟩, none⟩ := by
  decide

/-- Claim C7 (amended): `migrateDataIfNeeded`'s record migration is
unconditionally idempotent — already-migrated shapes pass through unchanged —
and `migrateV1ToV2` re-run on its own output is byte-identical provided the
clock has not advanced between the runs (and the legacy bare-number records
carry real, non-zero timestamps); at a later clock reading the rebuilt
metadata block is stamped with the new time, so full byte-identity fails. -/
theorem migration_step_idempotent_amended :
    (∀ fd : List (Nat × StoredVal) × List (Nat × StoredVal),
      migrateDataIfNeeded (migrateDataIfNeeded fd) = migrateDataIfNeeded fd) ∧
    (∀ (now : Nat) (d : MigData),
      (∀ e ∈ d.followDates.followers, v1RecordSafe e.2) →
      (∀ e ∈ d.followDates.following, v1RecordSafe e.2) →
      migrateV1ToV2 now (migrateV1ToV2 now d) = migrateV1ToV2 now d) := by
  constructor
  · intro fd
    simp only [migrateDataIfNeeded, List.map_map]
    refine Prod.ext ?_ ?_
    · apply List.map_congr_left
      intro e _
      simp only [Function.comp]
      rw [migrateEntry_idem]
    · apply List.map_congr_left
      intro e _
      simp only [Function.comp]
      rw [migrateEntry_idem]
  · exact migrateV1ToV2_idem

/-! ## Offline queue ordering (C8) and persistence (C9) -/

/-- Counterexample to Claim C8 as stated: with operations [X, Y] enqueued in
that order and X failing once then succeeding, the attempts run in the order
X (fail), Y (success), X (success) — Y is attempted and completed before X's
outcome is resolved, and the final success order is [Y, X], not [X, Y]. -/
theorem queue_fifo_counterexample :
    ((queuePass1.2.1 ++ queuePass2.2.1).filter (fun r => r.success)).map PassResult.id =
        [2, 1] ∧
    queuePass1.1 ++ queuePass2.1 = [(1, 1, false), (2, 1, true), (1, 2, true)] ∧
    ((queuePass1.2.1 ++ queuePass2.2.1).filter (fun r => r.success)).map PassResult.id ≠
        [1, 2] := by
  decide

/-- Claim C8 (amended): with [X, Y] queued and X failing its first attempt
within budget, the pass executes only X's failed attempt, requeues X at the
tail and stops; the next pass attempts and completes Y first, then retries X
successfully — so the final success order is Y then X, with Y attempted
after X's first failure but before X's eventual success. -/
theorem queue_requeue_order (sched : Nat → Nat → Bool) (now1 now2 : Nat) (x y : QueueItem)
    (hx1 : sched x.id (x.retryCount + 1) = false)
    (hx2 : sched x.id (x.retryCount + 2) = true)
    (hy : sched y.id (y.retryCount + 1) = true)
    (hbudget : ¬ x.retryCount + 1 > x.maxRetries) :
    processPass sched now1 [x, y] =
      ([(x.id, x.retryCount + 1, false)], [],
        [y, { x with
                retryCount := x.retryCount + 1
                nextRetry := now1 + retryDelay (x.retryCount + 1) }]) ∧
    (processPass sched now2 [y, { x with
        retryCount := x.retryCount + 1
        nextRetry := now1 + retryDelay (x.retryCount + 1) }]).2.1 =
      [⟨y.id, true⟩, ⟨x.id, true⟩] ∧
    (processPass sched now2 [y, { x with
        retryCount := x.retryCount + 1
        nextRetry := now1 + retryDelay (x.retryCount + 1) }]).1 =
      [(y.id, y.retryCount + 1, true), (x.id, x.retryCount + 2, true)] := by
  refine ⟨?_, ?_, ?_⟩
  · simp [processPass, hx1, hbudget]
  · simp [processPass, hy, hx2]
  · simp [processPass, hy, hx2]

/-- Witness for the amended C8 at a concrete input: the first pass over
[X, Y] runs only X's failing attempt and leaves [Y, X'] behind. -/
theorem queue_requeue_order_witness :
    processPass schedXY 0 [opX, opY] =
      ([(1, 1, false)], [], [opY, { opX with retryCount := 1, nextRetry := 5000 }]) := by
  have h := queue_requeue_order schedXY 0 2000 opX opY (by decide) (by decide) (by decide)
    (by decide)
  exact h.1.trans (by decide)

/-- Claim C9: the queue representation persisted by `persistQueue` never
contains a credential — it is identical to what would be written if every
queued operation's `jwtToken` were already absent, and every persisted item
carries no token. -/
theorem persistQueue_never_persists_token :
    ∀ (q : List QueueItem),
      persistQueue q = persistQueue (stripTokens q) ∧
      ∀ it ∈ persistQueue q, it.operation.data.jwtToken = none := by
  intro q
  constructor
  · simp only [persistQueue, stripTokens, List.map_map]
    apply List.map_congr_left
    intro it _
    rfl
  · intro it hit
    rcases List.mem_map.mp hit with ⟨it0, _, rfl⟩
    rfl

/-! ## Detail-cache eviction run (C6) -/

/-- Evaluation for Claim C6: in a capacity-2 cache filled with keys 1 and 2,
a hitting `get(1)` (shown returning its value) followed by `set(3, ...)`
evicts key 1 — the most recently touched entry — because `accessOrder` is
consulted in key-insertion order and JS `Map.set` on an existing key does not
move it; the stale key 2 survives. -/
theorem cache_lru_evicts_recently_used :
    mapFind lruFinal.cache 1 = none ∧
    mapFind lruFinal.cache 2 = some ⟨20, 1001⟩ ∧
    mapFind lruFinal.cache 3 = some ⟨30, 1003⟩ ∧
    (cacheGet 2 1 ((lruScenario.take 2).foldl applyCacheOp lruCache0)).1 = some 10 := by
  decide

/-! ## Cache capacity invariant (C10) -/

theorem cacheDelete_inv (c : Cache) (k : Nat) (h : CacheInv c) : CacheInv (cacheDelete c k) := by
  obtain ⟨h1, h2, h3, h4⟩ := h
  refine ⟨nodup_keysOf_mapDel _ _ h1, nodup_keysOf_mapDel _ _ h2, ?_, ?_⟩
  · intro j
    show j ∈ keysOf (mapDel c.cache k) ↔ j ∈ keysOf (mapDel c.accessOrder k)
    rw [mem_keysOf_mapDel, mem_keysOf_mapDel, h3 j]
  · exact le_trans (length_mapDel_le _ _) h4

theorem cacheDelete_length_le (c : Cache) (k : Nat) :
    (cacheDelete c k).cache.length ≤ c.cache.length :=
  length_mapDel_le _ _

theorem foldl_cacheDelete_inv (ks : List Nat) :
    ∀ (c : Cache), CacheInv c →
      CacheInv (ks.foldl cacheDelete c) ∧
        (ks.foldl cacheDelete c).cache.length ≤ c.cache.length ∧
        (ks.foldl cacheDelete c).maxSize = c.maxSize := by
  induction ks with
  | nil =>
    intro c h
    exact ⟨h, le_refl _, rfl⟩
  | cons k rest ih =>
    intro c h
    obtain ⟨i1, i2, i3⟩ := ih (cacheDelete c k) (cacheDelete_inv c k h)
    exact ⟨i1, le_trans i2 (cacheDelete_length_le c k), i3⟩

theorem cacheCleanup_inv (now : Nat) (c : Cache) (h : CacheInv c) :
    CacheInv (cacheCleanup now c) ∧
      (cacheCleanup now c).cache.length ≤ c.cache.length ∧
      (cacheCleanup now c).maxSize = c.maxSize :=
  foldl_cacheDelete_inv _ c h

theorem foldl_cacheDelete_maxSize (ks : List Nat) :
    ∀ (c : Cache), (ks.foldl cacheDelete c).maxSize = c.maxSize := by
  induction ks with
  | nil => intro c; rfl
  | cons k rest ih => intro c; exact ih (cacheDelete c k)

theorem cacheCleanup_maxSize (now : Nat) (c : Cache) :
    (cacheCleanup now c).maxSize = c.maxSize :=
  foldl_cacheDelete_maxSize _ c

theorem cacheWrite_inv (c1 : Cache) (now k v ttl : Nat)
    (h1 : (keysOf c1.cache).Nodup) (h2 : (keysOf c1.accessOrder).Nodup)
    (h3 : ∀ j, j ∈ keysOf c1.cache ↔ j ∈ keysOf c1.accessOrder)
    (hlen : c1.cache.length + 1 ≤ c1.maxSize) :
    CacheInv { c1 with
      cache := mapSet c1.cache k ⟨v, now + ttl⟩
      accessOrder := mapSet c1.accessOrder k now } := by
  refine ⟨nodup_keysOf_mapSet _ _ _ h1, nodup_keysOf_mapSet _ _ _ h2, ?_, ?_⟩
  · intro j
    show j ∈ keysOf (mapSet c1.cache k ⟨v, now + ttl⟩) ↔
      j ∈ keysOf (mapSet c1.accessOrder k now)
    rw [mem_keysOf_mapSet, mem_keysOf_mapSet, h3 j]
  · show (mapSet c1.cache k ⟨v, now + ttl⟩).length ≤ c1.maxSize
    rw [length_mapSet]
    split
    · omega
    · omega

theorem cacheSet_inv (now k v ttl : Nat) (c : Cache) (h : CacheInv c) (hms : 1 ≤ c.maxSize) :
    CacheInv (cacheSet now k v ttl c) := by
  obtain ⟨h1, h2, h3, h4⟩ := h
  simp only [cacheSet]
  split
  · obtain ⟨⟨d1, d2, d3, d4⟩, dlen, dms⟩ := cacheCleanup_inv now c ⟨h1, h2, h3, h4⟩
    split
    · next h2cap =>
      rcases hao : (cacheCleanup now c).accessOrder with _ | ⟨a, tail⟩
      · exfalso
        have hlen1 : 1 ≤ (cacheCleanup now c).cache.length := by
          rw [dms] at h2cap
          omega
        rcases hcl : (cacheCleanup now c).cache with _ | ⟨e, rest⟩
        · rw [hcl] at hlen1
          exact absurd hlen1 (by simp)
        · have hm : e.1 ∈ keysOf (cacheCleanup now c).cache := by
            rw [hcl, keysOf_cons]
            exact List.mem_cons_self _ _
          have hm2 := (d3 e.1).mp hm
          rw [hao] at hm2
          exact absurd hm2 (by simp [keysOf])
      · simp only [hao]
        have hmemao : a.1 ∈ keysOf (cacheCleanup now c).accessOrder := by
          rw [hao, keysOf_cons]
          exact List.mem_cons_self _ _
        have hmemc : a.1 ∈ keysOf (cacheCleanup now c).cache := (d3 a.1).mpr hmemao
        have hdel : (mapDel (cacheCleanup now c).cache a.1).length + 1 =
            (cacheCleanup now c).cache.length := length_mapDel_add_one _ _ d1 hmemc
        refine cacheWrite_inv _ now k v ttl (nodup_keysOf_mapDel _ _ d1)
          (nodup_keysOf_mapDel _ _ d2) ?_ ?_
        · intro j
          show j ∈ keysOf (mapDel (cacheCleanup now c).cache a.1) ↔
            j ∈ keysOf (mapDel (cacheCleanup now c).accessOrder a.1)
          rw [mem_keysOf_mapDel, mem_keysOf_mapDel, d3 j]
        · show (mapDel (cacheCleanup now c).cache a.1).length + 1 ≤ (cacheCleanup now c).maxSize
          rw [hdel]
          exact d4
    · next h2cap =>
      refine cacheWrite_inv _ now k v ttl d1 d2 d3 ?_
      push_neg at h2cap
      omega
  · next hcap =>
    refine cacheWrite_inv _ now k v ttl h1 h2 h3 ?_
    push_neg at hcap
    omega

theorem cacheGet_inv (now k : Nat) (c : Cache) (h : CacheInv c) :
    CacheInv (cacheGet now k c).2 := by
  obtain ⟨h1, h2, h3, h4⟩ := h
  rcases hfind : mapFind c.cache k with _ | e
  · simpa only [cacheGet, hfind] using And.intro h1 (And.intro h2 (And.intro h3 h4))
  · by_cases hexp : now > e.expiresAt
    · simp only [cacheGet, hfind, if_pos hexp]
      exact cacheDelete_inv c k ⟨h1, h2, h3, h4⟩
    · simp only [cacheGet, hfind, if_neg hexp]
      have hmem : k ∈ keysOf c.cache := mem_keysOf_of_mapFind _ _ _ hfind
      have hmem2 : k ∈ keysOf c.accessOrder := (h3 k).mp hmem
      refine ⟨h1, nodup_keysOf_mapSet _ _ _ h2, ?_, h4⟩
      intro j
      show j ∈ keysOf c.cache ↔ j ∈ keysOf (mapSet c.accessOrder k now)
      rw [show keysOf (mapSet c.accessOrder k now) = keysOf c.accessOrder by
        rw [keysOf_mapSet, if_pos hmem2]]
      exact h3 j

theorem cacheGet_maxSize (now k : Nat) (c : Cache) :
    ((cacheGet now k c).2).maxSize = c.maxSize := by
  rcases hfind : mapFind c.cache k with _ | e
  · simp only [cacheGet, hfind]
  · by_cases hexp : now > e.expiresAt
    · simp only [cacheGet, hfind, if_pos hexp]
      rfl
    · simp only [cacheGet, hfind, if_neg hexp]

theorem cacheSet_maxSize (now k v ttl : Nat) (c : Cache) :
    (cacheSet now k v ttl c).maxSize = c.maxSize := by
  simp only [cacheSet]
  split
  · split
    · rcases hao : (cacheCleanup now c).accessOrder with _ | ⟨a, tail⟩
      · simp only [hao]
        exact cacheCleanup_maxSize now c
      · simp only [hao]
        exact cacheCleanup_maxSize now c
    · exact cacheCleanup_maxSize now c
  · rfl

theorem applyCacheOp_inv (c : Cache) (op : CacheOp) (h : CacheInv c) (hms : 1 ≤ c.maxSize) :
    CacheInv (applyCacheOp c op) := by
  cases op with
  | setOp now k v ttl => exact cacheSet_inv now k v ttl c h hms
  | getOp now k => exact cacheGet_inv now k c h
  | delOp k => exact cacheDelete_inv c k h
  | clearOp =>
    exact ⟨List.nodup_nil, List.nodup_nil, fun j => Iff.rfl, Nat.zero_le _⟩

theorem applyCacheOp_maxSize (c : Cache) (op : CacheOp) :
    (applyCacheOp c op).maxSize = c.maxSize := by
  cases op with
  | setOp now k v ttl => exact cacheSet_maxSize now k v ttl c
  | getOp now k => exact cacheGet_maxSize now k c
  | delOp k => rfl
  | clearOp => rfl

theorem foldl_applyCacheOp_inv (ops : List CacheOp) :
    ∀ (c : Cache), CacheInv c → 1 ≤ c.maxSize →
      CacheInv (ops.foldl applyCacheOp c) ∧ (ops.foldl applyCacheOp c).maxSize = c.maxSize := by
  induction ops with
  | nil =>
    intro c h _
    exact ⟨h, rfl⟩
  | cons op rest ih =>
    intro c h hms
    have hop : CacheInv (applyCacheOp c op) := applyCacheOp_inv c op h hms
    have hmseq := applyCacheOp_maxSize c op
    obtain ⟨i1, i2⟩ := ih (applyCacheOp c op) hop (by rw [hmseq]; exact hms)
    exact ⟨i1, i2.trans hmseq⟩

/-- Claim C10: for every sequence of `set`, `get`, `delete` and `clear`
operations on an `IntelligentCache` with positive capacity (default 1000),
starting empty, the number of stored entries never exceeds `maxSize`: a
`set` at capacity always evicts (expired entries first, otherwise the front
of the access-order map) before inserting. -/
theorem cache_size_never_exceeds_max (maxSize defaultTTL : Nat) (ops : List CacheOp)
    (hms : 1 ≤ maxSize) :
    ((ops.foldl applyCacheOp (emptyCache maxSize defaultTTL)).cache).length ≤ maxSize := by
  have hinv : CacheInv (emptyCache maxSize defaultTTL) :=
    ⟨List.nodup_nil, List.nodup_nil, fun j => Iff.rfl, Nat.zero_le _⟩
  obtain ⟨⟨_, _, _, hlen⟩, hmseq⟩ := foldl_applyCacheOp_inv ops (emptyCache maxSize defaultTTL)
    hinv hms
  rw [hmseq] at hlen
  exact hlen

/-- Witness for C10 at a concrete input: four operations on a two-slot
cache, ending at capacity. -/
theorem cache_size_never_exceeds_max_witness :
    ((([CacheOp.setOp 0 1 10 1000, CacheOp.setOp 1 2 20 1000, CacheOp.getOp 2 1,
        CacheOp.setOp 3 3 30 1000]).foldl applyCacheOp (emptyCache 2 21600000)).cache).length ≤
      2 :=
  cache_size_never_exceeds_max 2 21600000
    [CacheOp.setOp 0 1 10 1000, CacheOp.setOp 1 2 20 1000, CacheOp.getOp 2 1,
      CacheOp.setOp 3 3 30 1000] (by decide)
